import Mathlib

/-
Shallow embedding of the hybrid local/remote storage engine of
`src/services/storage.ts` (local-first persistence with best-effort
background replication to a spreadsheet-backed API), together with proofs
about its generic CRUD operations, subscription reconciliation, settings
singleton and bulk import.
-/

namespace Storage

/-- A record as the engine sees it: an `id` field plus opaque caller-defined
payload fields.  The empty string models a missing/falsy JS `id` (the code
only ever tests `if (item.id)`, so an absent id and an empty-string id are
indistinguishable to it). -/
structure Rec where
  id : String
  fields : List (String × String)
deriving DecidableEq

/-- Remote mutation action carried by an `apiRequest` call. -/
inductive Action where
  | create
  | update
  | delete
deriving DecidableEq

/-! Decimal rendering of numbers

JS template literals render `Date.now()` and the map index `i` as decimal
digit strings.  `decRepr` is that rendering, defined by fuel recursion so
that it evaluates by kernel reduction. -/

/-- The character of a single decimal digit (`0`–`9` for `d < 10`). -/
def decDigitChar (d : Nat) : Char := Char.ofNat (48 + d)

/-- Decimal digit characters of `n`, most significant first;
`fuel` bounds the recursion depth. -/
def decReprAux : Nat → Nat → List Char
  | 0, _ => []
  | fuel + 1, n =>
    if n < 10 then [decDigitChar n]
    else decReprAux fuel (n / 10) ++ [decDigitChar (n % 10)]

/-- Decimal string of a natural number, as a JS template literal renders it. -/
def decRepr (n : Nat) : String := (decReprAux (n + 1) n).asString

/-- One step of reading a decimal digit string back into a number. -/
def decStep (a : Nat) (c : Char) : Nat := 10 * a + (c.toNat - 48)

/-- Read a decimal digit string back into a number (left inverse of `decRepr`). -/
def decVal (l : List Char) : Nat := l.foldl decStep 0

theorem decDigitChar_toNat {d : Nat} (h : d < 10) : (decDigitChar d).toNat = 48 + d := by
  interval_cases d <;> decide

theorem decDigitChar_ne_underscore {d : Nat} (h : d < 10) : decDigitChar d ≠ '_' := by
  interval_cases d <;> decide

theorem decReprAux_foldl (fuel : Nat) : ∀ n acc, n < 10 ^ fuel →
    List.foldl decStep acc (decReprAux fuel n) =
      acc * 10 ^ (decReprAux fuel n).length + n := by
  induction fuel with
  | zero =>
    intro n acc h
    interval_cases n
    simp [decReprAux]
  | succ fuel ih =>
    intro n acc h
    by_cases h10 : n < 10
    · simp only [decReprAux, if_pos h10, List.foldl_cons, List.foldl_nil, decStep,
        List.length_cons, List.length_nil, decDigitChar_toNat h10]
      omega
    · have hdiv : n / 10 < 10 ^ fuel := by
        rw [Nat.div_lt_iff_lt_mul (by norm_num)]
        calc n < 10 ^ (fuel + 1) := h
          _ = 10 ^ fuel * 10 := by ring
      simp only [decReprAux, if_neg h10, List.foldl_append, List.foldl_cons, List.foldl_nil,
        List.length_append, List.length_cons, List.length_nil]
      rw [ih (n / 10) acc hdiv]
      simp only [decStep, decDigitChar_toNat (Nat.mod_lt n (by norm_num))]
      rw [pow_succ, ← mul_assoc]
      omega

theorem decVal_decRepr (n : Nat) : decVal (decRepr n).data = n := by
  have hlt : n < 10 ^ (n + 1) :=
    lt_of_lt_of_le (Nat.lt_pow_self (by norm_num) n)
      (Nat.pow_le_pow_right (by norm_num) (Nat.le_succ n))
  have h := decReprAux_foldl (n + 1) n 0 hlt
  simpa [decRepr, decVal] using h

theorem decRepr_injective : Function.Injective decRepr := by
  intro a b h
  have ha := decVal_decRepr a
  rw [h, decVal_decRepr] at ha
  exact ha.symm

theorem decReprAux_digits (fuel : Nat) : ∀ n c, c ∈ decReprAux fuel n →
    ∃ d, d < 10 ∧ c = decDigitChar d := by
  induction fuel with
  | zero => intro n c hc; simp [decReprAux] at hc
  | succ fuel ih =>
    intro n c hc
    by_cases h10 : n < 10
    · simp only [decReprAux, if_pos h10, List.mem_singleton] at hc
      exact ⟨n, h10, hc⟩
    · simp only [decReprAux, if_neg h10, List.mem_append, List.mem_singleton] at hc
      rcases hc with hc | hc
      · exact ih _ _ hc
      · exact ⟨n % 10, Nat.mod_lt n (by norm_num), hc⟩

theorem underscore_not_mem_decRepr (n : Nat) : '_' ∉ (decRepr n).data := by
  intro hmem
  obtain ⟨d, hd, hc⟩ := decReprAux_digits (n + 1) n _ hmem
  exact decDigitChar_ne_underscore hd hc.symm

/-- Splitting at an underscore separator is unambiguous when neither left part
contains an underscore. -/
theorem append_cons_underscore_inj (a₁ : List Char) : ∀ (a₂ t₁ t₂ : List Char),
    '_' ∉ a₁ → '_' ∉ a₂ → a₁ ++ '_' :: t₁ = a₂ ++ '_' :: t₂ → a₁ = a₂ ∧ t₁ = t₂ := by
  induction a₁ with
  | nil =>
    intro a₂ t₁ t₂ _ h₂ h
    cases a₂ with
    | nil =>
      rw [List.nil_append, List.nil_append] at h
      injection h with _ ht
      exact ⟨rfl, ht⟩
    | cons b bs =>
      rw [List.nil_append, List.cons_append] at h
      injection h with hb _
      rw [← hb] at h₂
      exact absurd (List.mem_cons_self _ _) h₂
  | cons a as ih =>
    intro a₂ t₁ t₂ h₁ h₂ h
    cases a₂ with
    | nil =>
      rw [List.cons_append, List.nil_append] at h
      injection h with hb _
      rw [hb] at h₁
      exact absurd (List.mem_cons_self _ _) h₁
    | cons b bs =>
      rw [List.cons_append, List.cons_append] at h
      injection h with hb ht
      have h₁' : '_' ∉ as := fun hm => h₁ (List.mem_cons_of_mem _ hm)
      have h₂' : '_' ∉ bs := fun hm => h₂ (List.mem_cons_of_mem _ hm)
      obtain ⟨he, ht'⟩ := ih bs t₁ t₂ h₁' h₂' ht
      exact ⟨by rw [hb, he], ht'⟩

/-! Generated ids -/

/-- The id synthesized by `saveItem` when the incoming record has a falsy id:
`` `${table.substring(0,3)}_${Date.now()}_${Math.random().toString(36).substr(2,5)}` ``.
`now` is the value of `Date.now()`, `rand` the random base-36 suffix. -/
def genId (table : String) (now : Nat) (rand : String) : String :=
  table.take 3 ++ "_" ++ decRepr now ++ "_" ++ rand

/-- For a fixed table, distinct `(Date.now(), random suffix)` draws give
distinct generated ids (the decimal timestamp part contains no underscore,
so the separators parse back unambiguously). -/
theorem genId_inj {table : String} {n₁ n₂ : Nat} {r₁ r₂ : String}
    (h : genId table n₁ r₁ = genId table n₂ r₂) : n₁ = n₂ ∧ r₁ = r₂ := by
  have hd := congrArg String.data h
  have hu : ("_" : String).data = ['_'] := rfl
  simp only [genId, String.data_append, hu, List.append_assoc, List.singleton_append] at hd
  have hd₂ := List.append_cancel_left hd
  injection hd₂ with _ hd₃
  obtain ⟨he, ht⟩ := append_cons_underscore_inj _ _ _ _
    (underscore_not_mem_decRepr n₁) (underscore_not_mem_decRepr n₂) hd₃
  exact ⟨decRepr_injective (String.ext he), String.ext ht⟩

/-! Generic CRUD: `saveItem` and `deleteItem` -/

/-- JS `Array.prototype.findIndex`: index of the first element satisfying `p`. -/
def findIndex (p : Rec → Bool) : List Rec → Option Nat
  | [] => none
  | r :: rest => if p r then some 0 else (findIndex p rest).map (· + 1)

/-- Result of a `saveItem` call: the sequence written to the local store, the
action chosen for the remote mirror, and the record forwarded to it. -/
structure SaveResult where
  list : List Rec
  action : Action
  sent : Rec
deriving DecidableEq

/-- The operation `saveItem(key, table, item)`: if `item.id` is truthy and found, replace in
place (action `update`); if truthy but not found, append as-is (`create`);
if falsy, synthesize `genId` and append (`create`).  The updated sequence is
written to the local store (which notifies) and the affected record is
forwarded to the remote gateway. -/
def saveItem (table : String) (now : Nat) (rand : String) (list : List Rec) (item : Rec) :
    SaveResult :=
  if item.id ≠ "" then
    match findIndex (fun i => i.id == item.id) list with
    | some index => { list := list.set index item, action := Action.update, sent := item }
    | none => { list := list ++ [item], action := Action.create, sent := item }
  else
    let item' : Rec := { item with id := genId table now rand }
    { list := list ++ [item'], action := Action.create, sent := item' }

/-- The operation `deleteItem(key, table, id)`: the sequence written back to the local store
is the current one with every record whose id equals `id` filtered out;
a `delete` command with `{id}` is then forwarded to the remote gateway. -/
def deleteItem (list : List Rec) (id : String) : List Rec :=
  list.filter (fun i => i.id != id)

theorem findIndex_some {p : Rec → Bool} : ∀ {list : List Rec}, (∃ r ∈ list, p r) →
    ∃ idx r, findIndex p list = some idx ∧ list[idx]? = some r ∧ p r := by
  intro list
  induction list with
  | nil => rintro ⟨r, hr, -⟩; cases hr
  | cons a as ih =>
    rintro ⟨r, hr, hp⟩
    by_cases hpa : p a
    · exact ⟨0, a, by simp [findIndex, hpa], by simp, hpa⟩
    · have hex : ∃ r ∈ as, p r := by
        rcases List.mem_cons.mp hr with h | h
        · rw [h] at hp; exact absurd hp hpa
        · exact ⟨r, h, hp⟩
      obtain ⟨idx, r', hfi, hget, hp'⟩ := ih hex
      exact ⟨idx + 1, r', by simp [findIndex, hpa, hfi], by simpa using hget, hp'⟩

/-- Unfolding lemma: truthy id, found among existing ids. -/
theorem saveItem_found {table : String} {now : Nat} {rand : String} {list : List Rec}
    {item : Rec} {idx : Nat} (h : item.id ≠ "")
    (hfi : findIndex (fun i => i.id == item.id) list = some idx) :
    saveItem table now rand list item =
      { list := list.set idx item, action := Action.update, sent := item } := by
  unfold saveItem
  rw [if_pos h, hfi]

/-- Unfolding lemma: truthy id, not found among existing ids. -/
theorem saveItem_notFound {table : String} {now : Nat} {rand : String} {list : List Rec}
    {item : Rec} (h : item.id ≠ "")
    (hfi : findIndex (fun i => i.id == item.id) list = none) :
    saveItem table now rand list item =
      { list := list ++ [item], action := Action.create, sent := item } := by
  unfold saveItem
  rw [if_pos h, hfi]

/-- Unfolding lemma: falsy id, a fresh id is generated and the record appended. -/
theorem saveItem_noId {table : String} {now : Nat} {rand : String} {list : List Rec}
    {item : Rec} (h : item.id = "") :
    saveItem table now rand list item =
      { list := list ++ [{ item with id := genId table now rand }],
        action := Action.create, sent := { item with id := genId table now rand } } := by
  unfold saveItem
  rw [if_neg (fun hn => hn h)]

/-- C1: for every table and every record whose id is present (truthy) and equal
to the id of some record already in the locally stored sequence,
`save(table, record)` replaces that one entry in place: the resulting sequence
has the same length, the record at the matched position equals the new record,
every other record and its position are unchanged, and the action mirrored to
the remote is `update` with the new record. -/
theorem save_existing_id_replaces_in_place (table : String) (now : Nat) (rand : String)
    (list : List Rec) (item : Rec) (hid : item.id ≠ "")
    (hmem : ∃ r ∈ list, r.id = item.id) :
    ∃ idx,
      findIndex (fun i => i.id == item.id) list = some idx ∧
      (saveItem table now rand list item).list.length = list.length ∧
      (saveItem table now rand list item).list[idx]? = some item ∧
      (∀ j, j ≠ idx → (saveItem table now rand list item).list[j]? = list[j]?) ∧
      (saveItem table now rand list item).action = Action.update ∧
      (saveItem table now rand list item).sent = item := by
  obtain ⟨idx, r, hfi, hget, hp⟩ := @findIndex_some (fun i => i.id == item.id) list
    (by obtain ⟨r, hr, hid'⟩ := hmem; exact ⟨r, hr, by simp [hid']⟩)
  have hlt : idx < list.length := by
    by_contra hge
    rw [List.getElem?_eq_none (le_of_not_lt hge)] at hget
    cases hget
  have hsave := @saveItem_found table now rand list item idx hid hfi
  refine ⟨idx, hfi, ?_, ?_, ?_, ?_, ?_⟩
  · rw [hsave]; exact List.length_set list idx item
  · rw [hsave]
    rw [List.getElem?_set_self]
    simp [List.getElem?_eq_getElem, hlt]
  · intro j hj
    rw [hsave]
    exact List.getElem?_set_ne (Ne.symm hj)
  · rw [hsave]
  · rw [hsave]

/-- Witness for C1 at a concrete input. -/
theorem save_existing_id_replaces_in_place_witness :
    ∃ idx,
      findIndex (fun i => i.id == (Rec.mk "b" [("k", "v")]).id)
        [Rec.mk "a" [], Rec.mk "b" []] = some idx ∧
      (saveItem "students" 0 "x" [Rec.mk "a" [], Rec.mk "b" []]
        (Rec.mk "b" [("k", "v")])).list.length = [Rec.mk "a" [], Rec.mk "b" []].length ∧
      (saveItem "students" 0 "x" [Rec.mk "a" [], Rec.mk "b" []]
        (Rec.mk "b" [("k", "v")])).list[idx]? = some (Rec.mk "b" [("k", "v")]) ∧
      (∀ j, j ≠ idx →
        (saveItem "students" 0 "x" [Rec.mk "a" [], Rec.mk "b" []]
          (Rec.mk "b" [("k", "v")])).list[j]? = [Rec.mk "a" [], Rec.mk "b" []][j]?) ∧
      (saveItem "students" 0 "x" [Rec.mk "a" [], Rec.mk "b" []]
        (Rec.mk "b" [("k", "v")])).action = Action.update ∧
      (saveItem "students" 0 "x" [Rec.mk "a" [], Rec.mk "b" []]
        (Rec.mk "b" [("k", "v")])).sent = Rec.mk "b" [("k", "v")] :=
  save_existing_id_replaces_in_place "students" 0 "x" [Rec.mk "a" [], Rec.mk "b" []]
    (Rec.mk "b" [("k", "v")]) (by decide) (by decide)

/-- Under unique ids, filtering out `id` removes at most one record; helper
for the delete claim. -/
theorem length_filter_delete (id : String) : ∀ (list : List Rec),
    (list.map Rec.id).Nodup → ∀ r ∈ list, r.id = id →
    (list.filter (fun i => i.id != id)).length + 1 = list.length := by
  intro list
  induction list with
  | nil => intro _ r hr; cases hr
  | cons a as ih =>
    intro hnodup r hr hid
    rw [List.map_cons, List.nodup_cons] at hnodup
    by_cases ha : a.id = id
    · have hq : ∀ x ∈ as, (x.id != id) = true := by
        intro x hx
        have hxa : x.id ≠ a.id := by
          intro he
          exact hnodup.1 (he ▸ List.mem_map_of_mem Rec.id hx)
        simp [bne_iff_ne]
        rw [← ha]
        exact fun he => hxa he
      simp [List.filter_cons, ha, List.filter_eq_self.mpr hq]
    · have hras : r ∈ as := by
        rcases List.mem_cons.mp hr with h | h
        · rw [h] at hid; exact absurd hid ha
        · exact h
      have hqa : (a.id != id) = true := by simp [bne_iff_ne, ha]
      simp only [List.filter_cons, hqa, if_pos, List.length_cons]
      rw [ih hnodup.2 r hras hid]

/-- C3: `delete(table, id)` filters out exactly the records carrying `id` (at
most one under the id-uniqueness invariant) and keeps every other record in its
original order; deleting an absent id is a no-op, and delete is idempotent. -/
theorem delete_removes_exactly_and_idempotent (list : List Rec) (id : String) :
    (deleteItem list id).Sublist list ∧
    (∀ r ∈ list, r.id ≠ id → r ∈ deleteItem list id) ∧
    (∀ r ∈ deleteItem list id, r.id ≠ id) ∧
    ((∀ r ∈ list, r.id ≠ id) → deleteItem list id = list) ∧
    deleteItem (deleteItem list id) id = deleteItem list id ∧
    ((list.map Rec.id).Nodup → ∀ r ∈ list, r.id = id →
      (deleteItem list id).length + 1 = list.length) := by
  refine ⟨List.filter_sublist _, ?_, ?_, ?_, ?_, length_filter_delete id list⟩
  · intro r hr hne
    exact List.mem_filter.mpr ⟨hr, by simpa [bne_iff_ne] using hne⟩
  · intro r hr
    have h := (List.mem_filter.mp hr).2
    simpa [bne_iff_ne] using h
  · intro hall
    apply List.filter_eq_self.mpr
    intro r hr
    simpa [bne_iff_ne] using hall r hr
  · simp [deleteItem, List.filter_filter]

/-- Witness for C3 at a concrete input. -/
theorem delete_removes_exactly_and_idempotent_witness :
    (deleteItem [Rec.mk "a" [], Rec.mk "b" [], Rec.mk "c" []] "b").length + 1 =
      [Rec.mk "a" [], Rec.mk "b" [], Rec.mk "c" []].length ∧
    deleteItem (deleteItem [Rec.mk "a" [], Rec.mk "b" [], Rec.mk "c" []] "b") "b" =
      deleteItem [Rec.mk "a" [], Rec.mk "b" [], Rec.mk "c" []] "b" ∧
    ((∀ r ∈ [Rec.mk "a" [], Rec.mk "b" [], Rec.mk "c" []], r.id ≠ "z") →
      deleteItem [Rec.mk "a" [], Rec.mk "b" [], Rec.mk "c" []] "z" =
        [Rec.mk "a" [], Rec.mk "b" [], Rec.mk "c" []]) :=
  ⟨(delete_removes_exactly_and_idempotent [Rec.mk "a" [], Rec.mk "b" [], Rec.mk "c" []]
      "b").2.2.2.2.2 (by decide) (Rec.mk "b" []) (by decide) rfl,
   (delete_removes_exactly_and_idempotent [Rec.mk "a" [], Rec.mk "b" [], Rec.mk "c" []]
      "b").2.2.2.2.1,
   (delete_removes_exactly_and_idempotent [Rec.mk "a" [], Rec.mk "b" [], Rec.mk "c" []]
      "z").2.2.2.1⟩

/-! Remote gateway -/

/-- The hardcoded fallback Apps Script endpoint (`DEFAULT_API_URL` in the
source). -/
def DEFAULT_API_URL : String :=
  "https://script.google.com/macros/s/AKfycbzJ2VqHuQvz1XxsmeZTsB-1AFP7qW2k7Fpmlkoah46ObMUP0zHGESTrUYDqMkvwrt3bcA/exec"

/-- The helper `getApiUrl()`: `localStorage.getItem(KEYS.API_URL) || DEFAULT_API_URL`.
`storedUrl = none` models an absent key (`getItem` returns `null`); a stored
empty string is falsy in JS, so both fall back to the default. -/
def getApiUrl (storedUrl : Option String) : String :=
  match storedUrl with
  | some u => if u = "" then DEFAULT_API_URL else u
  | none => DEFAULT_API_URL

/-- Network effect of one `apiRequest` call. -/
inductive ReqEffect where
  | noop
  | post (url : String) (action : Action) (table : String) (data : Rec)
deriving DecidableEq

/-- The call `apiRequest(action, table, data)`: returns immediately with no network I/O
when the effective URL is falsy, otherwise POSTs `{action, table, data}` to it
(fire-and-forget, `no-cors`; failures are swallowed and logged). -/
def apiRequest (storedUrl : Option String) (action : Action) (table : String) (data : Rec) :
    ReqEffect :=
  let url := getApiUrl storedUrl
  if url = "" then ReqEffect.noop else ReqEffect.post url action table data

/-- Network effect of one `apiFetch` call. -/
inductive FetchEffect where
  | noop
  | get (url : String) (table : String)
deriving DecidableEq

/-- The call `apiFetch(table)`: returns `null` immediately with no network I/O when the
effective URL is falsy, otherwise GETs `url?action=read&table=<table>`. -/
def apiFetch (storedUrl : Option String) (table : String) : FetchEffect :=
  let url := getApiUrl storedUrl
  if url = "" then FetchEffect.noop else FetchEffect.get url table

/-- The effective URL is never falsy: the hardcoded default fills in whenever
the stored one is absent or empty. -/
theorem getApiUrl_ne_empty (storedUrl : Option String) : getApiUrl storedUrl ≠ "" := by
  have hd : DEFAULT_API_URL ≠ "" := by decide
  cases storedUrl with
  | none => exact hd
  | some u =>
    by_cases hu : u = ""
    · simp [getApiUrl, hu, hd]
    · simp [getApiUrl, hu]

/-- C5 counterexample: with no stored API URL at all, `apiRequest` and
`apiFetch` are not no-ops — they perform network I/O against the hardcoded
default endpoint. -/
theorem gateway_noop_counterexample :
    apiRequest none Action.create "students" (Rec.mk "a" []) =
      ReqEffect.post DEFAULT_API_URL Action.create "students" (Rec.mk "a" []) ∧
    apiRequest none Action.create "students" (Rec.mk "a" []) ≠ ReqEffect.noop ∧
    apiFetch none "students" = FetchEffect.get DEFAULT_API_URL "students" ∧
    apiFetch none "students" ≠ FetchEffect.noop := by decide

/-- C5 amended: gateway calls are no-ops only when the effective URL is empty,
which never happens: with no stored API URL (or a stored empty string) the
hardcoded default endpoint is used, so every `apiRequest`/`apiFetch` call
performs network I/O against the result of `getApiUrl` rather than degrading to
pure local mode. -/
theorem gateway_uses_default_url (storedUrl : Option String) (action : Action)
    (table : String) (data : Rec) :
    getApiUrl storedUrl ≠ "" ∧
    apiRequest storedUrl action table data =
      ReqEffect.post (getApiUrl storedUrl) action table data ∧
    apiFetch storedUrl table = FetchEffect.get (getApiUrl storedUrl) table ∧
    getApiUrl none = DEFAULT_API_URL := by
  have hne := getApiUrl_ne_empty storedUrl
  refine ⟨hne, ?_, ?_, rfl⟩
  · unfold apiRequest
    rw [if_neg hne]
  · unfold apiFetch
    rw [if_neg hne]

/-! Settings singleton -/

/-- The singleton id every settings write is forced to. -/
def GLOBAL_SETTINGS_ID : String := "global_settings"

/-- The payload one `saveSettings(settings)` call persists at the settings
key, notifies to listeners, and forwards to the remote as an `update`:
`{...settings, id: "global_settings"}`. -/
def saveSettings (settings : Rec) : Rec :=
  { settings with id := GLOBAL_SETTINGS_ID }

/-- Value of the settings key after a sequence of `saveSettings` calls starting
from `init` (`none` = key absent); each call overwrites the key with the
single serialized payload object. -/
def runSaveSettings (init : Option Rec) : List Rec → Option Rec
  | [] => init
  | s :: rest => runSaveSettings (some (saveSettings s)) rest

theorem runSaveSettings_last : ∀ (ps : List Rec) (init : Option Rec) (h : ps ≠ []),
    runSaveSettings init ps = some (saveSettings (ps.getLast h)) := by
  intro ps
  induction ps with
  | nil => intro _ h; exact absurd rfl h
  | cons s rest ih =>
    intro init h
    cases rest with
    | nil => rfl
    | cons t ts =>
      have hne : t :: ts ≠ [] := by simp
      show runSaveSettings (some (saveSettings s)) (t :: ts) =
        some (saveSettings ((s :: t :: ts).getLast h))
      rw [ih (some (saveSettings s)) hne]
      rw [List.getLast_cons hne]

/-- C4: after any non-empty sequence of `saveSettings` calls, the settings key
holds exactly one stored record whose fields are those of the last payload
written and whose id is the constant `"global_settings"`; moreover the record
forwarded to the remote on each call carries that same constant id. -/
theorem settings_singleton_last_write_wins (init : Option Rec) (ps : List Rec)
    (h : ps ≠ []) :
    runSaveSettings init ps = some (saveSettings (ps.getLast h)) ∧
    (saveSettings (ps.getLast h)).id = GLOBAL_SETTINGS_ID ∧
    (saveSettings (ps.getLast h)).fields = (ps.getLast h).fields ∧
    (∀ s : Rec, (saveSettings s).id = GLOBAL_SETTINGS_ID) :=
  ⟨runSaveSettings_last ps init h, rfl, rfl, fun _ => rfl⟩

/-- Witness for C4 at a concrete input: two different payloads written in
sequence leave one record carrying the fields of the second payload and the forced id. -/
theorem settings_singleton_last_write_wins_witness :
    runSaveSettings none
        [Rec.mk "x" [("theme", "light")], Rec.mk "" [("theme", "dark")]] =
      some (saveSettings ([Rec.mk "x" [("theme", "light")],
        Rec.mk "" [("theme", "dark")]].getLast (by decide))) ∧
    (saveSettings ([Rec.mk "x" [("theme", "light")],
        Rec.mk "" [("theme", "dark")]].getLast (by decide))).id = GLOBAL_SETTINGS_ID ∧
    (saveSettings ([Rec.mk "x" [("theme", "light")],
        Rec.mk "" [("theme", "dark")]].getLast (by decide))).fields =
      ([Rec.mk "x" [("theme", "light")], Rec.mk "" [("theme", "dark")]].getLast
        (by decide)).fields ∧
    (∀ s : Rec, (saveSettings s).id = GLOBAL_SETTINGS_ID) :=
  settings_singleton_last_write_wins none
    [Rec.mk "x" [("theme", "light")], Rec.mk "" [("theme", "dark")]] (by decide)

/-! Generated-id scenarios -/

theorem saveItem_noId_list {table : String} {now : Nat} {rand : String} {list : List Rec}
    {item : Rec} (h : item.id = "") :
    (saveItem table now rand list item).list =
      list ++ [{ item with id := genId table now rand }] := by
  rw [saveItem_noId h]

theorem genId_students (now : Nat) (rand : String) :
    genId "students" now rand = "stu_" ++ (decRepr now ++ "_" ++ rand) := by
  apply String.ext
  have h1 : ("students".take 3 : String) = "stu" := rfl
  have h2 : ("stu" : String).data = ['s', 't', 'u'] := rfl
  have h3 : ("_" : String).data = ['_'] := rfl
  have h4 : ("stu_" : String).data = ['s', 't', 'u', '_'] := rfl
  simp only [genId, h1, String.data_append, h2, h3, h4, List.append_assoc,
    List.cons_append, List.nil_append]

theorem stu_append_ne_empty (s : String) : ("stu_" ++ s) ≠ "" := by
  intro h
  have hd := congrArg String.data h
  have h4 : ("stu_" : String).data = ['s', 't', 'u', '_'] := rfl
  rw [String.data_append, h4] at hd
  simp at hd

/-- C6 counterexample: saving `{name:"Ana", grade:"3"}` with no id to an empty
students table, with `Date.now() = 0` and random suffix `"abcde"`, stores one
record whose generated id is `"stu_0_abcde"` — it starts with `"stu_"` (the
three-letter cut of the table name `"students"`), not with `"std_"` as the
claim states. -/
theorem save_ana_prefix_counterexample :
    (saveItem "students" 0 "abcde" []
        (Rec.mk "" [("name", "Ana"), ("grade", "3")])).list.map Rec.id =
      ["stu_0_abcde"] ∧
    List.isPrefixOf "std_".data "stu_0_abcde".data = false ∧
    List.isPrefixOf "stu_".data "stu_0_abcde".data = true := by decide

/-- C6 amended: saving `{name:"Ana", grade:"3"}` with no id to the empty
students table yields exactly one record whose generated id starts with
`"stu_"` (the first three letters of `"students"` plus separator — not
`"std_"`); a second save of the same fields together with that generated id
updates the existing entry in place (action `update`) rather than appending a
duplicate. -/
theorem save_ana_then_update_in_place (now : Nat) (rand : String)
    (now₂ : Nat) (rand₂ : String) :
    ∃ rest : String,
      (saveItem "students" now rand []
          (Rec.mk "" [("name", "Ana"), ("grade", "3")])).list =
        [Rec.mk ("stu_" ++ rest) [("name", "Ana"), ("grade", "3")]] ∧
      (saveItem "students" now₂ rand₂
          [Rec.mk ("stu_" ++ rest) [("name", "Ana"), ("grade", "3")]]
          (Rec.mk ("stu_" ++ rest) [("name", "Ana"), ("grade", "3")])).list =
        [Rec.mk ("stu_" ++ rest) [("name", "Ana"), ("grade", "3")]] ∧
      (saveItem "students" now₂ rand₂
          [Rec.mk ("stu_" ++ rest) [("name", "Ana"), ("grade", "3")]]
          (Rec.mk ("stu_" ++ rest) [("name", "Ana"), ("grade", "3")])).action =
        Action.update := by
  refine ⟨decRepr now ++ "_" ++ rand, ?_, ?_, ?_⟩
  · rw [saveItem_noId_list rfl]
    rw [genId_students]
    rfl
  · have hfi : findIndex
        (fun i => i.id == (Rec.mk ("stu_" ++ (decRepr now ++ "_" ++ rand))
          [("name", "Ana"), ("grade", "3")]).id)
        [Rec.mk ("stu_" ++ (decRepr now ++ "_" ++ rand))
          [("name", "Ana"), ("grade", "3")]] = some 0 := by
      simp [findIndex]
    rw [saveItem_found (stu_append_ne_empty _) hfi]
    rfl
  · have hfi : findIndex
        (fun i => i.id == (Rec.mk ("stu_" ++ (decRepr now ++ "_" ++ rand))
          [("name", "Ana"), ("grade", "3")]).id)
        [Rec.mk ("stu_" ++ (decRepr now ++ "_" ++ rand))
          [("name", "Ana"), ("grade", "3")]] = some 0 := by
      simp [findIndex]
    rw [saveItem_found (stu_append_ne_empty _) hfi]

/-! Sequences of id-less saves -/

/-- A sequence of `save` calls on one table: each call carries the incoming
record together with the `Date.now()` value and random suffix drawn during
it; each call writes its updated sequence before the next reads it. -/
def runSaves (table : String) : List Rec → List (Rec × Nat × String) → List Rec
  | list, [] => list
  | list, (item, now, rand) :: rest =>
      runSaves table (saveItem table now rand list item).list rest

theorem runSaves_noIds (table : String) : ∀ (calls : List (Rec × Nat × String))
    (list : List Rec), (∀ c ∈ calls, c.1.id = "") →
    runSaves table list calls =
      list ++ calls.map (fun c => { c.1 with id := genId table c.2.1 c.2.2 }) := by
  intro calls
  induction calls with
  | nil => intro list _; simp [runSaves]
  | cons c cs ih =>
    intro list hall
    obtain ⟨item, now, rand⟩ := c
    have hid : item.id = "" := hall _ (List.mem_cons_self _ _)
    show runSaves table (saveItem table now rand list item).list cs = _
    rw [saveItem_noId_list hid]
    rw [ih _ (fun d hd => hall d (List.mem_cons_of_mem _ hd))]
    simp [List.append_assoc]

/-- C7 counterexample: two id-less saves that draw the same `Date.now()` value
and the same random suffix produce the same generated id — the resulting
students table holds two records with identical ids. -/
theorem saves_duplicate_entropy_counterexample :
    (runSaves "students" [] [(Rec.mk "" [("name", "Ana")], 0, "aaaaa"),
        (Rec.mk "" [("name", "Bob")], 0, "aaaaa")]).map Rec.id =
      ["stu_0_aaaaa", "stu_0_aaaaa"] ∧
    ¬ ((runSaves "students" [] [(Rec.mk "" [("name", "Ana")], 0, "aaaaa"),
        (Rec.mk "" [("name", "Bob")], 0, "aaaaa")]).map Rec.id).Nodup := by decide

/-- C7 amended: for every sequence of save calls without ids on one table
(starting from an empty table), each resulting record is assigned the
freshly generated id of its call, and all assigned ids are pairwise distinct
provided the `(Date.now(), random suffix)` pairs drawn by the calls are
pairwise distinct — uniqueness is only as good as the entropy, as two calls
in the same millisecond with a colliding suffix repeat the id. -/
theorem saves_without_id_have_distinct_ids (table : String)
    (calls : List (Rec × Nat × String))
    (hnoid : ∀ c ∈ calls, c.1.id = "")
    (hent : (calls.map (fun c => (c.2.1, c.2.2))).Nodup) :
    (runSaves table [] calls).map Rec.id =
      calls.map (fun c => genId table c.2.1 c.2.2) ∧
    ((runSaves table [] calls).map Rec.id).Nodup := by
  have hids : (runSaves table [] calls).map Rec.id =
      calls.map (fun c => genId table c.2.1 c.2.2) := by
    rw [runSaves_noIds table calls [] hnoid]
    simp [List.map_map, Function.comp]
  refine ⟨hids, ?_⟩
  rw [hids]
  have hinj : Function.Injective (fun p : Nat × String => genId table p.1 p.2) := by
    intro p q h
    obtain ⟨h1, h2⟩ := genId_inj h
    exact Prod.ext h1 h2
  have hmm : calls.map (fun c => genId table c.2.1 c.2.2) =
      (calls.map (fun c => (c.2.1, c.2.2))).map
        (fun p : Nat × String => genId table p.1 p.2) := by
    simp [List.map_map, Function.comp]
  rw [hmm]
  exact hent.map hinj

/-- Witness for the amended C7 statement at a concrete input. -/
theorem saves_without_id_have_distinct_ids_witness :
    (runSaves "students" [] [(Rec.mk "" [("name", "Ana")], 0, "aa"),
        (Rec.mk "" [("name", "Bob")], 1, "aa")]).map Rec.id =
      [(Rec.mk "" [("name", "Ana")], 0, ("aa" : String)),
        (Rec.mk "" [("name", "Bob")], 1, "aa")].map
        (fun c => genId "students" c.2.1 c.2.2) ∧
    ((runSaves "students" [] [(Rec.mk "" [("name", "Ana")], 0, "aa"),
        (Rec.mk "" [("name", "Bob")], 1, "aa")]).map Rec.id).Nodup :=
  saves_without_id_have_distinct_ids "students"
    [(Rec.mk "" [("name", "Ana")], 0, "aa"), (Rec.mk "" [("name", "Bob")], 1, "aa")]
    (by decide) (by decide)

/-! Subscriptions -/

/-- A callback by reference identity (JS closures compared with `!==`). -/
abbrev CB := Nat

/-- What `res.json()` resolved to, as the background fetch of
`createSubscriber` sees it: `null` on transport or parse failure, some
non-array JSON value, or an array of records. -/
inductive CloudData where
  | null
  | nonArray
  | arr (xs : List Rec)
deriving DecidableEq

/-- Observable step of a subscription: a direct callback invocation with the
given full-table value, or a raw `localStorage.setItem` of the table key. -/
inductive Ev where
  | invoke (cb : CB) (data : List Rec)
  | setStore (xs : List Rec)
deriving DecidableEq

/-- State relevant to one table key: the locally stored sequence (`none` when
the key is absent) and the listener registry for that key.  The stored value
is kept as the deserialized sequence: every write of the key stores the
canonical `JSON.stringify` serialization, so the string comparison
`currentLocal !== newCloud` in the source coincides with equality of these
values (with `none ≠ some xs` for an absent key). -/
structure SubState where
  store : Option (List Rec)
  listeners : List CB
deriving DecidableEq

/-- The entry `createSubscriber(key, tableName)(callback)`: pushes the callback onto the
registry, invokes it synchronously with the current local contents, and — the
effective API URL being always truthy — lets the background fetch resolve to
`cloud`: only a non-empty array whose serialization differs from the cached
one overwrites the key (raw `setItem`, no notify) and invokes the one callback
again.  Returns the new state and the ordered event trace. -/
def subscribeRun (st : SubState) (storedUrl : Option String) (cloud : CloudData) (c : CB) :
    SubState × List Ev :=
  if getApiUrl storedUrl ≠ "" then
    match cloud with
    | CloudData.arr xs =>
      if xs ≠ [] ∧ st.store ≠ some xs then
        ({ store := some xs, listeners := st.listeners ++ [c] },
          [Ev.invoke c (st.store.getD []), Ev.setStore xs, Ev.invoke c xs])
      else
        ({ st with listeners := st.listeners ++ [c] }, [Ev.invoke c (st.store.getD [])])
    | _ => ({ st with listeners := st.listeners ++ [c] }, [Ev.invoke c (st.store.getD [])])
  else ({ st with listeners := st.listeners ++ [c] }, [Ev.invoke c (st.store.getD [])])

/-- The unsubscribe capability returned by `createSubscriber` and
`subscribeSettings`: `listeners[key] = listeners[key].filter(cb => cb !== callback)`. -/
def unsubscribeRun (ls : List CB) (c : CB) : List CB :=
  ls.filter (fun x => x != c)

/-- The callbacks invoked in an event trace, in order. -/
def invokedCallbacks (evs : List Ev) : List CB :=
  evs.filterMap (fun e => match e with
    | Ev.invoke cb _ => some cb
    | _ => none)

/-- C2: subscribing first invokes the callback synchronously with the current
local contents; a second invocation happens iff the remote fetch returns a
non-empty array differing from the cached value, in which case the local
cache is overwritten with the remote data before the second invocation; on a
failed fetch, a non-array, an empty array, or an equal snapshot there is no
second invocation and the cache is untouched (an empty remote snapshot never
overwrites a non-empty local cache). -/
theorem subscribe_replay_and_reconcile (st : SubState) (storedUrl : Option String)
    (cloud : CloudData) (c : CB) :
    (subscribeRun st storedUrl cloud c).2.head? =
      some (Ev.invoke c (st.store.getD [])) ∧
    ((∃ xs, cloud = CloudData.arr xs ∧ xs ≠ [] ∧ st.store ≠ some xs) →
      ∃ xs, cloud = CloudData.arr xs ∧
        (subscribeRun st storedUrl cloud c).2 =
          [Ev.invoke c (st.store.getD []), Ev.setStore xs, Ev.invoke c xs] ∧
        (subscribeRun st storedUrl cloud c).1.store = some xs) ∧
    (¬ (∃ xs, cloud = CloudData.arr xs ∧ xs ≠ [] ∧ st.store ≠ some xs) →
      (subscribeRun st storedUrl cloud c).2 = [Ev.invoke c (st.store.getD [])] ∧
      (subscribeRun st storedUrl cloud c).1.store = st.store) := by
  have hne := getApiUrl_ne_empty storedUrl
  unfold subscribeRun
  rw [if_pos hne]
  cases cloud with
  | null =>
    refine ⟨rfl, ?_, fun _ => ⟨rfl, rfl⟩⟩
    rintro ⟨xs, heq, -⟩
    cases heq
  | nonArray =>
    refine ⟨rfl, ?_, fun _ => ⟨rfl, rfl⟩⟩
    rintro ⟨xs, heq, -⟩
    cases heq
  | arr xs =>
    dsimp only
    by_cases hcond : xs ≠ [] ∧ st.store ≠ some xs
    · rw [if_pos hcond]
      refine ⟨rfl, fun _ => ⟨xs, rfl, rfl, rfl⟩, ?_⟩
      intro hno
      exact absurd ⟨xs, rfl, hcond.1, hcond.2⟩ hno
    · rw [if_neg hcond]
      refine ⟨rfl, ?_, fun _ => ⟨rfl, rfl⟩⟩
      rintro ⟨xs', heq, h1, h2⟩
      cases heq
      exact absurd ⟨h1, h2⟩ hcond

/-- Witness for C2 at a concrete input: a differing non-empty remote snapshot
produces the overwrite followed by the second invocation. -/
theorem subscribe_replay_and_reconcile_witness :
    ∃ xs, CloudData.arr [Rec.mk "b" []] = CloudData.arr xs ∧
      (subscribeRun (SubState.mk (some [Rec.mk "a" []]) [7]) none
          (CloudData.arr [Rec.mk "b" []]) 9).2 =
        [Ev.invoke 9 [Rec.mk "a" []], Ev.setStore xs, Ev.invoke 9 xs] ∧
      (subscribeRun (SubState.mk (some [Rec.mk "a" []]) [7]) none
          (CloudData.arr [Rec.mk "b" []]) 9).1.store = some xs :=
  (subscribe_replay_and_reconcile (SubState.mk (some [Rec.mk "a" []]) [7]) none
      (CloudData.arr [Rec.mk "b" []]) 9).2.1
    ⟨[Rec.mk "b" []], rfl, by decide, by decide⟩

/-- C8 counterexample: with the same callback reference registered twice, the
unsubscribe capability removes **both** registrations, not only the one it was
created for. -/
theorem unsubscribe_same_reference_counterexample :
    unsubscribeRun [5, 5] 5 = [] ∧
    unsubscribeRun [5, 5] 5 ≠ [5] ∧
    5 ∉ unsubscribeRun [5, 5] 5 := by decide

theorem length_filter_ne_add_count (c : CB) (ls : List CB) :
    (ls.filter (fun x => x != c)).length + ls.count c = ls.length := by
  induction ls with
  | nil => simp
  | cons a as ih =>
    by_cases h : a = c
    · simp [List.filter_cons, List.count_cons, h]
      omega
    · simp [List.filter_cons, List.count_cons, h]
      omega

/-- C8 amended: the unsubscribe capability removes every registration whose
callback reference equals its own (removal is by reference equality over the
whole registry, not removal of a single registration): registrations of
distinct callbacks survive in order, and when the callback occurs exactly
once, exactly that one registration is removed. -/
theorem unsubscribe_removes_reference_globally (ls : List CB) (c : CB) :
    (unsubscribeRun ls c).Sublist ls ∧
    c ∉ unsubscribeRun ls c ∧
    (∀ d ∈ ls, d ≠ c → d ∈ unsubscribeRun ls c) ∧
    (ls.count c = 1 → (unsubscribeRun ls c).length + 1 = ls.length) := by
  refine ⟨List.filter_sublist _, ?_, ?_, ?_⟩
  · intro hc
    have h := (List.mem_filter.mp hc).2
    simp at h
  · intro d hd hne
    exact List.mem_filter.mpr ⟨hd, by simp [hne]⟩
  · intro h1
    have h := length_filter_ne_add_count c ls
    rw [h1] at h
    exact h

/-- Witness for the amended C8 statement at a concrete input. -/
theorem unsubscribe_removes_reference_globally_witness :
    (2 : CB) ∉ unsubscribeRun [1, 2, 3] 2 ∧
    (unsubscribeRun [1, 2, 3] 2).length + 1 = ([1, 2, 3] : List CB).length ∧
    (1 : CB) ∈ unsubscribeRun [1, 2, 3] 2 :=
  ⟨(unsubscribe_removes_reference_globally [1, 2, 3] 2).2.1,
   (unsubscribe_removes_reference_globally [1, 2, 3] 2).2.2.2 (by decide),
   (unsubscribe_removes_reference_globally [1, 2, 3] 2).2.2.1 1 (by decide) (by decide)⟩

/-- C10: during the background reconciliation of a subscription, even when the
remote snapshot overwrites the local cache, every callback invocation in the
trace is of the newly subscribing callback — the overwrite path writes the
store directly and never goes through the notifier, so all other registered
listeners receive nothing and keep their stale view (they do remain
registered). -/
theorem reconciliation_invokes_only_subscriber (st : SubState) (storedUrl : Option String)
    (cloud : CloudData) (c : CB) :
    ((invokedCallbacks (subscribeRun st storedUrl cloud c).2).all (fun cb => cb == c)) = true ∧
    (subscribeRun st storedUrl cloud c).1.listeners = st.listeners ++ [c] := by
  have hne := getApiUrl_ne_empty storedUrl
  unfold subscribeRun
  rw [if_pos hne]
  cases cloud with
  | null => exact ⟨by simp [invokedCallbacks], rfl⟩
  | nonArray => exact ⟨by simp [invokedCallbacks], rfl⟩
  | arr xs =>
    dsimp only
    by_cases hcond : xs ≠ [] ∧ st.store ≠ some xs
    · rw [if_pos hcond]
      exact ⟨by simp [invokedCallbacks], rfl⟩
    · rw [if_neg hcond]
      exact ⟨by simp [invokedCallbacks], rfl⟩

/-! Bulk import -/

/-- Id generated for the `i`-th record of a bulk import:
`` `std_${Date.now()}_${i}_${Math.random().toString(36).substr(2,4)}` ``. -/
def bulkId (now i : Nat) (rand : String) : String :=
  "std_" ++ decRepr now ++ "_" ++ decRepr i ++ "_" ++ rand

/-- Two bulk-import ids can only coincide when they were built for the same
index, whatever the timestamps and random suffixes were. -/
theorem bulkId_inj_index {n₁ n₂ i₁ i₂ : Nat} {r₁ r₂ : String}
    (h : bulkId n₁ i₁ r₁ = bulkId n₂ i₂ r₂) : i₁ = i₂ := by
  have hd := congrArg String.data h
  have hu : ("_" : String).data = ['_'] := rfl
  have hs : ("std_" : String).data = ['s', 't', 'd', '_'] := rfl
  simp only [bulkId, String.data_append, hu, hs, List.append_assoc, List.cons_append,
    List.nil_append, List.singleton_append] at hd
  injection hd with _ hd
  injection hd with _ hd
  injection hd with _ hd
  injection hd with _ hd
  obtain ⟨-, hd₂⟩ := append_cons_underscore_inj _ _ _ _
    (underscore_not_mem_decRepr n₁) (underscore_not_mem_decRepr n₂) hd
  obtain ⟨he, -⟩ := append_cons_underscore_inj _ _ _ _
    (underscore_not_mem_decRepr i₁) (underscore_not_mem_decRepr i₂) hd₂
  exact decRepr_injective (String.ext he)

/-- The mapping `newStudents.map((s, i) => ({...s, id: ...}))` of `bulkImportStudents`,
with `now i` / `rand i` the `Date.now()` value and random suffix drawn while
preparing index `i`. -/
def prepareBulk (now : Nat → Nat) (rand : Nat → String) : Nat → List Rec → List Rec
  | _, [] => []
  | i, s :: rest =>
      { s with id := bulkId (now i) i (rand i) } :: prepareBulk now rand (i + 1) rest

theorem prepareBulk_length (now : Nat → Nat) (rand : Nat → String) :
    ∀ (ss : List Rec) (i : Nat), (prepareBulk now rand i ss).length = ss.length := by
  intro ss
  induction ss with
  | nil => intro i; rfl
  | cons s rest ih => intro i; simp [prepareBulk, ih]

theorem prepareBulk_id_mem (now : Nat → Nat) (rand : Nat → String) :
    ∀ (ss : List Rec) (i : Nat) (r : Rec), r ∈ prepareBulk now rand i ss →
    ∃ k, i ≤ k ∧ r.id = bulkId (now k) k (rand k) := by
  intro ss
  induction ss with
  | nil => intro i r hr; simp [prepareBulk] at hr
  | cons s rest ih =>
    intro i r hr
    rcases List.mem_cons.mp hr with h | h
    · exact ⟨i, le_refl i, by rw [h]⟩
    · obtain ⟨k, hk, hid⟩ := ih (i + 1) r h
      exact ⟨k, le_trans (Nat.le_succ i) hk, hid⟩

/-- The ids assigned by one bulk import are pairwise distinct, whatever the
timestamps and random suffixes: each id embeds the index of its record. -/
theorem prepareBulk_ids_nodup (now : Nat → Nat) (rand : Nat → String) :
    ∀ (ss : List Rec) (i : Nat), ((prepareBulk now rand i ss).map Rec.id).Nodup := by
  intro ss
  induction ss with
  | nil => intro i; simp [prepareBulk]
  | cons s rest ih =>
    intro i
    simp only [prepareBulk, List.map_cons, List.nodup_cons]
    refine ⟨?_, ih (i + 1)⟩
    intro hmem
    obtain ⟨r, hr, hid⟩ := List.mem_map.mp hmem
    obtain ⟨k, hk, hid'⟩ := prepareBulk_id_mem now rand rest (i + 1) r hr
    rw [hid'] at hid
    have hik := bulkId_inj_index hid
    omega

/-- Result of `bulkImportStudents`: the combined sequence written to the local
store by the single `setData` call, the one notification that `setData`
delivers to every registered listener (full combined value), and the remote
create commands issued one per record, sequentially and in order. -/
structure BulkResult where
  list : List Rec
  notified : List (CB × List Rec)
  remote : List (Action × Rec)
deriving DecidableEq

/-- The operation `bulkImportStudents(newStudents)`: reads the current list, prepares the
new records with fresh index-tagged ids, appends them all in one local write
(hence one notification for the whole batch), then issues one remote
`create` per prepared record. -/
def bulkImportStudents (listeners : List CB) (now : Nat → Nat) (rand : Nat → String)
    (list newStudents : List Rec) : BulkResult :=
  let prepared := prepareBulk now rand 0 newStudents
  let combined := list ++ prepared
  { list := combined
    notified := listeners.map (fun cb => (cb, combined))
    remote := prepared.map (fun s => (Action.create, s)) }

/-- C9: bulk import assigns each of the N new records a fresh id derived from
its index, timestamp and random suffix, all N pairwise distinct; it appends
all N after the existing records in a single local write whose one
notification delivers the whole batch to each registered listener exactly
once; and it issues exactly one remote create command per record, N calls in
sequence. -/
theorem bulk_import_distinct_ids_single_write (listeners : List CB)
    (now : Nat → Nat) (rand : Nat → String) (list newStudents : List Rec) :
    (bulkImportStudents listeners now rand list newStudents).list =
      list ++ prepareBulk now rand 0 newStudents ∧
    (prepareBulk now rand 0 newStudents).length = newStudents.length ∧
    ((prepareBulk now rand 0 newStudents).map Rec.id).Nodup ∧
    (bulkImportStudents listeners now rand list newStudents).notified =
      listeners.map (fun cb => (cb, list ++ prepareBulk now rand 0 newStudents)) ∧
    (bulkImportStudents listeners now rand list newStudents).remote =
      (prepareBulk now rand 0 newStudents).map (fun s => (Action.create, s)) ∧
    (bulkImportStudents listeners now rand list newStudents).remote.length =
      newStudents.length := by
  refine ⟨rfl, prepareBulk_length now rand newStudents 0,
    prepareBulk_ids_nodup now rand newStudents 0, rfl, rfl, ?_⟩
  show ((prepareBulk now rand 0 newStudents).map (fun s => (Action.create, s))).length = _
  rw [List.length_map, prepareBulk_length]

end Storage
